import Mathlib

/-!
Verification of the filesystem storage backend (`StorageDatabase` in the
`database` package) and the request handlers (`service/server.go`) of the
simple-rest document store.

Modelling choices:
* Go strings are byte/character sequences; we model them as `List Char`
  (`GoStr`).  Byte payloads (`[]byte`) are `List Nat` (`Bytes`).
* The filesystem visible to one `StorageDatabase` (rooted at
  `RootDirPath`) is a map from namespace name to a directory, a directory
  being a map from file name to file contents.  Both maps are association
  lists.  `filepath.Join root ns` is injective in `ns` for a fixed root,
  so the root prefix is elided.
* Each OS call (`os.MkdirAll`, `os.Stat`, `os.WriteFile`, `os.ReadFile`,
  `os.ReadDir`, `os.Remove`, `os.RemoveAll`) can fail for reasons other
  than non-existence (permissions, I/O errors, ...).  A `Faults` oracle
  decides, per call site and path, whether such a spurious failure
  occurs; `noFaults` is the fault-free environment.  `os.Stat`
  distinguishes success, `os.ErrNotExist`, and other errors, because
  `StorageDatabase.Upsert` branches on exactly that distinction.
* `os.WriteFile` is modelled as atomic (a failed write leaves the prior
  contents); this is the kindest reading of the source's non-atomic
  write, and the discrepancies proved below arise even under it.
-/

abbrev GoStr := List Char

abbrev Bytes := List Nat

/-- Association-list lookup (Go map read / directory-entry lookup). -/
def assq {β : Type} : List (GoStr × β) → GoStr → Option β
  | [], _ => none
  | (k', v) :: rest, k => if k' = k then some v else assq rest k

/-- Association-list update (Go map write / create-or-replace a file). -/
def setq {β : Type} : List (GoStr × β) → GoStr → β → List (GoStr × β)
  | [], k, v => [(k, v)]
  | (k', v') :: rest, k, v =>
      if k' = k then (k, v) :: rest else (k', v') :: setq rest k v

/-- Association-list removal (delete a file / remove a directory). -/
def delq {β : Type} : List (GoStr × β) → GoStr → List (GoStr × β)
  | [], _ => []
  | (k', v') :: rest, k => if k' = k then rest else (k', v') :: delq rest k

/-- Shorthand turning a Lean string literal into a `GoStr`. -/
def gs (s : String) : GoStr := s.data

/-- A directory is well formed when its file names are distinct; a real
filesystem directory cannot hold two entries with the same name. -/
def dirWF (d : List (GoStr × Bytes)) : Prop := (d.map Prod.fst).Nodup

/-- The filesystem is well formed when namespace names are distinct and
every directory is well formed. -/
def fsWF (fs : List (GoStr × List (GoStr × Bytes))) : Prop :=
  (fs.map Prod.fst).Nodup ∧ ∀ p ∈ fs, dirWF p.2

/-- The stored contents of file `name` in namespace `ns` — the observer
used to state what a mutation left on disk. -/
def fileLookup (fs : List (GoStr × List (GoStr × Bytes))) (ns name : GoStr) :
    Option Bytes :=
  match assq fs ns with
  | none => none
  | some d => assq d name

/-- Error codes of the `database` package (`DbError.ErrorCode`). -/
inductive ErrorCode where
  | ID_NOT_FOUND
  | NAMESPACE_NOT_FOUND
  | FILESYSTEM_ERROR
deriving DecidableEq, Repr

/-- `database.DbError`: a typed error code plus a human-readable message. -/
structure DbError where
  errorCode : ErrorCode
  message : String
deriving DecidableEq, Repr

/-- A directory: file name → contents. -/
abbrev Dir := List (GoStr × Bytes)

/-- The filesystem under the storage root: namespace name → directory. -/
abbrev FS := List (GoStr × Dir)

/-- Fault oracle: which OS calls fail spuriously (beyond non-existence). -/
structure Faults where
  mkdirAll : GoStr → Bool
  stat : GoStr → GoStr → Bool
  write : GoStr → GoStr → Bool
  read : GoStr → GoStr → Bool
  readDir : GoStr → Bool
  remove : GoStr → GoStr → Bool
  removeAll : GoStr → Bool

/-- The fault-free environment: every OS call behaves nominally. -/
def noFaults : Faults where
  mkdirAll := fun _ => false
  stat := fun _ _ => false
  write := fun _ _ => false
  read := fun _ _ => false
  readDir := fun _ => false
  remove := fun _ _ => false
  removeAll := fun _ => false

/-- Result of `os.Stat`: success, `os.ErrNotExist`, or some other error. -/
inductive StatRes where
  | ok
  | notExist
  | otherErr
deriving DecidableEq, Repr

/-- `os.MkdirAll` on the namespace directory: no-op when it exists. -/
def mkdirAllOp (f : Faults) (fs : FS) (ns : GoStr) : Except Unit FS :=
  if f.mkdirAll ns then .error ()
  else match assq fs ns with
    | some _ => .ok fs
    | none => .ok (setq fs ns [])

/-- `os.Stat` on file `name` inside namespace directory `ns`. -/
def statOp (f : Faults) (fs : FS) (ns name : GoStr) : StatRes :=
  if f.stat ns name then .otherErr
  else match assq fs ns with
    | none => .notExist
    | some d => match assq d name with
      | some _ => .ok
      | none => .notExist

/-- `os.WriteFile`: create or fully replace `name` in directory `ns`. -/
def writeFileOp (f : Faults) (fs : FS) (ns name : GoStr) (v : Bytes) :
    Except Unit FS :=
  if f.write ns name then .error ()
  else match assq fs ns with
    | some d => .ok (setq fs ns (setq d name v))
    | none => .error ()

/-- `os.ReadFile`: read the contents of `name` in directory `ns`. -/
def readFileOp (f : Faults) (fs : FS) (ns name : GoStr) : Except Unit Bytes :=
  if f.read ns name then .error ()
  else match assq fs ns with
    | none => .error ()
    | some d => match assq d name with
      | some b => .ok b
      | none => .error ()

/-- `os.ReadDir`: list the entries of the namespace directory. -/
def readDirOp (f : Faults) (fs : FS) (ns : GoStr) : Except Unit Dir :=
  if f.readDir ns then .error ()
  else match assq fs ns with
    | some d => .ok d
    | none => .error ()

/-- `os.Remove`: delete file `name` from directory `ns`. -/
def removeOp (f : Faults) (fs : FS) (ns name : GoStr) : Except Unit FS :=
  if f.remove ns name then .error ()
  else match assq fs ns with
    | none => .error ()
    | some d => match assq d name with
      | some _ => .ok (setq fs ns (delq d name))
      | none => .error ()

/-- `os.RemoveAll`: delete the namespace directory; succeeds if absent. -/
def removeAllOp (f : Faults) (fs : FS) (ns : GoStr) : Except Unit FS :=
  if f.removeAll ns then .error () else .ok (delq fs ns)

/-- `strings.SplitN(s, ".", 2)`: the part before the first dot, and,
when a dot occurs, the remainder after it. -/
def splitN2 : GoStr → GoStr × Option GoStr
  | [] => ([], none)
  | c :: rest =>
    if c = '.' then ([], some rest)
    else
      let p := splitN2 rest
      (c :: p.1, p.2)

/-- The `.json` suffix that `getFilePath` appends to every key. -/
def jsonExt : GoStr := ['.', 'j', 's', 'o', 'n']

/-- `getFilePath` relative to the namespace directory: `<key>.json`. -/
def getFileName (key : GoStr) : GoStr := key ++ jsonExt

namespace StorageDatabase

/-- `StorageDatabase.Upsert`: ensure the namespace directory, `os.Stat`
the target file, and write the value when stat succeeded or reported
`os.ErrNotExist`; any other stat outcome skips the write and the function
returns success (`nil`). -/
def Upsert (f : Faults) (fs : FS) (ns key : GoStr) (v : Bytes) :
    FS × Option DbError :=
  match mkdirAllOp f fs ns with
  | .error _ => (fs, some ⟨.FILESYSTEM_ERROR, "mkdir error"⟩)
  | .ok fs1 =>
    let name := getFileName key
    match statOp f fs1 ns name with
    | .ok | .notExist =>
      match writeFileOp f fs1 ns name v with
      | .error _ => (fs1, some ⟨.FILESYSTEM_ERROR, "write error"⟩)
      | .ok fs2 => (fs2, none)
    | .otherErr => (fs1, none)

/-- `StorageDatabase.Get`: `os.ReadFile` the target file; any read error
is reported as `FILESYSTEM_ERROR`. -/
def Get (f : Faults) (fs : FS) (ns key : GoStr) : Bytes × Option DbError :=
  match readFileOp f fs ns (getFileName key) with
  | .error _ => ([], some ⟨.FILESYSTEM_ERROR, "read error"⟩)
  | .ok b => (b, none)

/-- The loop body of `StorageDatabase.GetAll`: split each entry name at
the first dot (`strings.SplitN(name, ".", 2)`); entries without a dot or
whose remainder is not `json` are skipped; for the rest, re-read the file
through `Get` and abort on the first error. -/
def getAllLoop (f : Faults) (fs : FS) (ns : GoStr) :
    Dir → Except DbError (List (GoStr × Bytes))
  | [] => .ok []
  | (name, _) :: rest =>
    match splitN2 name with
    | (_, none) => getAllLoop f fs ns rest
    | (rawKey, some ext) =>
      if ext = ['j', 's', 'o', 'n'] then
        match Get f fs ns rawKey with
        | (_, some e) => .error e
        | (b, none) =>
          match getAllLoop f fs ns rest with
          | .error e => .error e
          | .ok m => .ok ((rawKey, b) :: m)
      else getAllLoop f fs ns rest

/-- `StorageDatabase.GetAll`: `os.ReadDir` the namespace directory (any
error is `FILESYSTEM_ERROR`), then run the entry loop. -/
def GetAll (f : Faults) (fs : FS) (ns : GoStr) :
    Except DbError (List (GoStr × Bytes)) :=
  match readDirOp f fs ns with
  | .error _ => .error ⟨.FILESYSTEM_ERROR, "readdir error"⟩
  | .ok docs => getAllLoop f fs ns docs

/-- `StorageDatabase.Delete`: any `os.Stat` failure is `ID_NOT_FOUND`;
otherwise `os.Remove`, whose failure is `FILESYSTEM_ERROR`. -/
def Delete (f : Faults) (fs : FS) (ns key : GoStr) : FS × Option DbError :=
  let name := getFileName key
  match statOp f fs ns name with
  | .ok =>
    match removeOp f fs ns name with
    | .error _ => (fs, some ⟨.FILESYSTEM_ERROR, "remove error"⟩)
    | .ok fs2 => (fs2, none)
  | _ => (fs, some ⟨.ID_NOT_FOUND, "value not found"⟩)

/-- `StorageDatabase.DeleteAll`: `os.RemoveAll` the namespace directory;
its failure is `FILESYSTEM_ERROR`. -/
def DeleteAll (f : Faults) (fs : FS) (ns : GoStr) : FS × Option DbError :=
  match removeAllOp f fs ns with
  | .error _ => (fs, some ⟨.FILESYSTEM_ERROR, "removeall error"⟩)
  | .ok fs2 => (fs2, none)

end StorageDatabase

/-! ## The request-handling layer (`service/server.go`)

The handlers are modelled against the filesystem backend above (the
`Database` interface instantiated with `StorageDatabase`).  A handler
produces the new filesystem state, the list of HTTP responses written in
order, and the list of broker events passed to `Server.Notify`, in order.
The decoded-JSON type produced by `json.Unmarshal` is an opaque type
parameter `α` (Go's `interface{}`); a `nil` interface value is `none`. -/

/-- Event kind constant `EVENT_ITEM_ADDED`. -/
def EVENT_ITEM_ADDED : String := "ITEM_ADDED"

/-- Event kind constant `EVENT_ITEM_DELETED`. -/
def EVENT_ITEM_DELETED : String := "ITEM_DELETED"

/-- Event kind constant `EVENT_NAMESPACE_DELETED`. -/
def EVENT_NAMESPACE_DELETED : String := "NAMESPACE_DELETED"

/-- `service.BrokerEvent`, with the decoded value of type `α`. -/
structure BrokerEvent (α : Type) where
  event : String
  user : String
  namespace' : GoStr
  key : GoStr
  value : Option α
deriving DecidableEq, Repr

/-- An HTTP response as written by `respondWithError` (carrying the
error message) or `respondWithJSON` (carrying the body). -/
inductive Response where
  | error (status : Nat) (msg : String)
  | json (status : Nat) (body : String)
deriving DecidableEq, Repr

/-- Render a byte payload as the string body `string(data)`. -/
def bytesStr (b : Bytes) : String := String.mk (b.map Char.ofNat)

/-- The error branch shared by the handlers for `GetAll`/`DeleteAll`
outcomes: `NAMESPACE_NOT_FOUND` maps to 400, anything else to 500. -/
def namespaceErrResponse (e : DbError) : Response :=
  match e.errorCode with
  | .NAMESPACE_NOT_FOUND => .error 400 e.message
  | _ => .error 500 e.message

/-- The error branch of `keyValueHandler` for `Get`/`Delete` outcomes:
`ID_NOT_FOUND` maps to 404, `NAMESPACE_NOT_FOUND` to 400, else 500. -/
def keyValueErrResponse (e : DbError) : Response :=
  match e.errorCode with
  | .ID_NOT_FOUND => .error 404 e.message
  | .NAMESPACE_NOT_FOUND => .error 400 e.message
  | .FILESYSTEM_ERROR => .error 500 e.message

/-- The `http.MethodDelete` branch of `Server.namespaceHandler`: call
`DeleteAll`; on error write an error response (the code does not return
here), then unconditionally notify `NAMESPACE_DELETED` and respond 202. -/
def handleNamespaceDelete (α : Type) (f : Faults) (fs : FS)
    (userId : String) (ns : GoStr) :
    FS × List Response × List (BrokerEvent α) :=
  let r := StorageDatabase.DeleteAll f fs ns
  let errResps := match r.2 with
    | some e => [namespaceErrResponse e]
    | none => []
  (r.1, errResps ++ [.json 202 "{}"],
    [⟨EVENT_NAMESPACE_DELETED, userId, ns, [], none⟩])

/-- The `http.MethodPost` branch of `Server.keyValueHandler`, from the
`Upsert` call on: `data` are the bytes being written and `parsedData`
the value `validate` decoded.  On error, respond and return; on success,
notify `ITEM_ADDED` and respond 201 with the written bytes. -/
def handleKeyValuePost (α : Type) (f : Faults) (fs : FS) (userId : String)
    (ns key : GoStr) (data : Bytes) (parsedData : Option α) :
    FS × List Response × List (BrokerEvent α) :=
  let r := StorageDatabase.Upsert f fs ns key data
  match r.2 with
  | some e => (r.1, [keyValueErrResponse e], [])
  | none =>
    (r.1, [.json 201 (bytesStr data)],
      [⟨EVENT_ITEM_ADDED, userId, ns, key, parsedData⟩])

/-- The `http.MethodDelete` branch of `Server.keyValueHandler`: on error,
respond and return; on success, notify `ITEM_DELETED` and respond 202. -/
def handleKeyValueDelete (α : Type) (f : Faults) (fs : FS)
    (userId : String) (ns key : GoStr) :
    FS × List Response × List (BrokerEvent α) :=
  let r := StorageDatabase.Delete f fs ns key
  match r.2 with
  | some e => (r.1, [keyValueErrResponse e], [])
  | none =>
    (r.1, [.json 202 "{}"],
      [⟨EVENT_ITEM_DELETED, userId, ns, key, none⟩])

/-! ## The validation gate (`Server.validate`)

`gojsonschema` and `json.Unmarshal` are external collaborators; they are
passed in as functions.  `jsonParse data` is `none` exactly when
`json.Unmarshal` fails on `data` (the bytes are not syntactically valid
JSON).  `schemaValidate schema data` mirrors `gojsonschema.Validate`:
either a hard error or a result carrying validity and the list of
violated-rule descriptions.  The schema lookup
`s.db.Get(namespace+"_schema", SchemaId)` is passed in as its outcome
(`.ok schemaJson` when `dbErr == nil`). -/

/-- `gojsonschema.Result`: validity plus the violated-rule descriptions
(`result.Errors()`, each already rendered by `desc.String()`). -/
structure SchemaResult where
  valid : Bool
  errors : List String
deriving DecidableEq, Repr

/-- The aggregation loop of `Server.validate`: concatenate every
violated-rule description into one `errorLog` string. -/
def aggregateErrors (descs : List String) : String :=
  descs.foldl (fun acc d => acc ++ d) ""

/-- `Server.validate`: if the schema lookup succeeded, run the schema
validator — on an invalid result abort with the single aggregated error,
on a valid one return `json.Unmarshal`'s decoding (its error ignored);
if the lookup failed for any reason, only require the bytes to parse as
JSON. -/
def validate (α : Type) (jsonParse : Bytes → Option α)
    (schemaValidate : Bytes → Bytes → Except String SchemaResult)
    (schemaLookup : Except DbError Bytes) (data : Bytes) :
    Except String (Option α) :=
  match schemaLookup with
  | .ok schemaJson =>
    match schemaValidate schemaJson data with
    | .error e => .error e
    | .ok result =>
      if result.valid then .ok (jsonParse data)
      else .error (aggregateErrors result.errors)
  | .error _ =>
    match jsonParse data with
    | none => .error "invalid json"
    | some parsed => .ok (some parsed)

/-! ## Concrete environments and states used in the theorems below -/

/-- A fault oracle whose only spurious failure is `os.Stat` on one file. -/
def statFaultAt (ns0 name0 : GoStr) : Faults :=
  { noFaults with
    stat := fun ns name => decide (ns = ns0) && decide (name = name0) }

/-- A fault oracle whose only spurious failure is `os.RemoveAll` on one
namespace directory. -/
def removeAllFaultAt (ns0 : GoStr) : Faults :=
  { noFaults with removeAll := fun ns => decide (ns = ns0) }

/-- Whether a `GetAll` outcome is a success. -/
def isOkE (r : Except DbError (List (GoStr × Bytes))) : Bool :=
  match r with
  | .ok _ => true
  | .error _ => false

/-- The entry list of a successful `GetAll` outcome (empty on error). -/
def okList (r : Except DbError (List (GoStr × Bytes))) :
    List (GoStr × Bytes) :=
  match r with
  | .ok m => m
  | .error _ => []

/-- A namespace `users` holding only key `2`. -/
def exFS1 : FS := [(gs "users", [(getFileName (gs "2"), [49])])]

/-- A namespace `users` holding key `1` with prior payload `[104, 105]`. -/
def exFS2 : FS := [(gs "users", [(getFileName (gs "1"), [104, 105])])]

/-- A stat fault on exactly the file backing `("users", "1")`. -/
def exFaults2 : Faults := statFaultAt (gs "users") (getFileName (gs "1"))

/-- A namespace `posts` holding key `7` with prior payload `[3]`. -/
def exFS3 : FS := [(gs "posts", [(getFileName (gs "7"), [3])])]

/-- A stat fault on exactly the file backing `("posts", "7")`. -/
def exFaults3 : Faults := statFaultAt (gs "posts") (getFileName (gs "7"))

/-- A namespace `events` holding key `1`. -/
def exFS4 : FS := [(gs "events", [(getFileName (gs "1"), [2])])]

/-- A removeAll fault on the `events` namespace directory. -/
def exFaults4 : Faults := removeAllFaultAt (gs "events")

/-- A filesystem holding only the (empty) namespace `a`. -/
def exFS5 : FS := [(gs "a", [])]

/-- A namespace `w` holding key `k`. -/
def exFS6 : FS := [(gs "w", [(getFileName (gs "k"), [1])])]

/-- A namespace `n7` holding key `1`. -/
def exFS7 : FS := [(gs "n7", [(getFileName (gs "1"), [2])])]

/-- A directory mixing well-formed entries (`a.json`, `.json`) with ones
`GetAll` skips (`b.txt`, `c`, `d.e.json`). -/
def exDir10 : Dir :=
  [(getFileName (gs "a"), [1]), (gs "b.txt", [2]), (gs "c", [3]),
    (gs "d.e.json", [4]), (gs ".json", [5])]

/-- A filesystem holding `exDir10` under namespace `docs`. -/
def exFS10 : FS := [(gs "docs", exDir10)]

/-! ## Association-list lemmas -/

theorem assq_eq_none_of_not_mem {β : Type} {l : List (GoStr × β)} {k : GoStr}
    (h : k ∉ l.map Prod.fst) : assq l k = none := by
  induction l with
  | nil => rfl
  | cons p rest ih =>
    obtain ⟨k', v'⟩ := p
    simp only [List.map_cons, List.mem_cons, not_or] at h
    have hk : k' ≠ k := fun he => h.1 he.symm
    simp only [assq, if_neg hk, ih h.2]

theorem assq_eq_some_of_mem {β : Type} {l : List (GoStr × β)} {k : GoStr}
    {b : β} (hnd : (l.map Prod.fst).Nodup) (h : (k, b) ∈ l) :
    assq l k = some b := by
  induction l with
  | nil => cases h
  | cons p rest ih =>
    obtain ⟨k', v'⟩ := p
    simp only [List.map_cons, List.nodup_cons] at hnd
    rcases List.mem_cons.mp h with he | hm
    · obtain ⟨rfl, rfl⟩ := Prod.mk.injEq .. ▸ he
      simp [assq]
    · have hk : k' ≠ k := by
        rintro rfl
        exact hnd.1 (List.mem_map.mpr ⟨(k', b), hm, rfl⟩)
      simp only [assq, if_neg hk]
      exact ih hnd.2 hm

theorem mem_of_assq_eq_some {β : Type} {l : List (GoStr × β)} {k : GoStr}
    {b : β} (h : assq l k = some b) : (k, b) ∈ l := by
  induction l with
  | nil => cases h
  | cons p rest ih =>
    obtain ⟨k', v'⟩ := p
    by_cases hk : k' = k
    · subst hk
      simp [assq] at h
      subst h
      exact List.mem_cons_self _ _
    · simp only [assq, if_neg hk] at h
      exact List.mem_cons_of_mem _ (ih h)

theorem assq_setq_self {β : Type} (l : List (GoStr × β)) (k : GoStr) (v : β) :
    assq (setq l k v) k = some v := by
  induction l with
  | nil => simp [setq, assq]
  | cons p rest ih =>
    obtain ⟨k', v'⟩ := p
    by_cases hk : k' = k
    · simp [setq, if_pos hk, assq]
    · simp only [setq, if_neg hk, assq, if_neg hk]
      exact ih

theorem assq_delq_self {β : Type} {l : List (GoStr × β)} (k : GoStr)
    (hnd : (l.map Prod.fst).Nodup) : assq (delq l k) k = none := by
  induction l with
  | nil => rfl
  | cons p rest ih =>
    obtain ⟨k', v'⟩ := p
    simp only [List.map_cons, List.nodup_cons] at hnd
    by_cases hk : k' = k
    · subst hk
      simp only [delq, if_pos rfl]
      exact assq_eq_none_of_not_mem hnd.1
    · simp only [delq, if_neg hk, assq, if_neg hk]
      exact ih hnd.2

/-! ## `splitN2` lemmas -/

theorem splitN2_sep {n pre post : GoStr} (h : splitN2 n = (pre, some post)) :
    n = pre ++ '.' :: post ∧ '.' ∉ pre := by
  induction n generalizing pre post with
  | nil => cases h
  | cons c rest ih =>
    by_cases hc : c = '.'
    · subst hc
      simp only [splitN2, if_pos rfl, Prod.mk.injEq, Option.some.injEq] at h
      obtain ⟨rfl, rfl⟩ := h
      exact ⟨rfl, List.not_mem_nil _⟩
    · rcases hsr : splitN2 rest with ⟨pre', post'⟩
      simp only [splitN2, if_neg hc, hsr, Prod.mk.injEq] at h
      obtain ⟨h1, h2⟩ := h
      subst h2
      subst h1
      obtain ⟨hr, hnm⟩ := ih hsr
      constructor
      · rw [List.cons_append, ← hr]
      · intro hm
        rcases List.mem_cons.mp hm with he | hm2
        · exact hc he.symm
        · exact hnm hm2

theorem splitN2_none_no_dot {n pre : GoStr} (h : splitN2 n = (pre, none)) :
    '.' ∉ n := by
  induction n generalizing pre with
  | nil => exact List.not_mem_nil _
  | cons c rest ih =>
    by_cases hc : c = '.'
    · subst hc
      simp [splitN2] at h
    · rcases hsr : splitN2 rest with ⟨pre', post'⟩
      simp only [splitN2, if_neg hc, hsr, Prod.mk.injEq] at h
      obtain ⟨h1, h2⟩ := h
      subst h2
      intro hm
      rcases List.mem_cons.mp hm with he | hm2
      · exact hc he.symm
      · exact ih hsr hm2

theorem splitN2_append (K t : GoStr) (h : '.' ∉ K) :
    splitN2 (K ++ '.' :: t) = (K, some t) := by
  induction K with
  | nil => simp [splitN2]
  | cons c K' ih =>
    have hc : c ≠ '.' := fun he => h (he ▸ List.mem_cons_self ..)
    have h' : '.' ∉ K' := fun hm => h (List.mem_cons_of_mem _ hm)
    simp only [List.cons_append, splitN2, if_neg hc, List.append_eq, ih h']

theorem getFileName_eq (K : GoStr) :
    getFileName K = K ++ '.' :: ['j', 's', 'o', 'n'] := rfl

theorem dot_mem_getFileName (K : GoStr) : '.' ∈ getFileName K := by
  rw [getFileName_eq]
  exact List.mem_append_right _ (List.mem_cons_self _ _)

theorem splitN2_getFileName {K : GoStr} (h : '.' ∉ K) :
    splitN2 (getFileName K) = (K, some ['j', 's', 'o', 'n']) := by
  rw [getFileName_eq]
  exact splitN2_append K _ h

theorem getAllLoop_spec (fs : FS) (ns : GoStr) (dir : Dir)
    (hdir : assq fs ns = some dir) (hnd : dirWF dir) :
    ∀ l : Dir, (∀ e ∈ l, e ∈ dir) →
      ∃ m, StorageDatabase.getAllLoop noFaults fs ns l = .ok m ∧
        ∀ K b, ((K, b) ∈ m ↔ ((getFileName K, b) ∈ l ∧ '.' ∉ K)) := by
  intro l
  induction l with
  | nil => exact fun _ => ⟨[], rfl, by simp [StorageDatabase.getAllLoop]⟩
  | cons e rest ih =>
    intro hl
    obtain ⟨name, bb⟩ := e
    have hmem : (name, bb) ∈ dir := hl _ (List.mem_cons_self _ _)
    have hrest : ∀ e ∈ rest, e ∈ dir := fun e he => hl e (List.mem_cons_of_mem _ he)
    obtain ⟨m, hm, hiff⟩ := ih hrest
    rcases hsp : splitN2 name with ⟨rawKey, post⟩
    cases post with
    | none =>
      have hnod : '.' ∉ name := splitN2_none_no_dot hsp
      refine ⟨m, ?_, ?_⟩
      · simp only [StorageDatabase.getAllLoop, hsp, hm]
      · intro K b
        rw [hiff K b]
        constructor
        · rintro ⟨h1, h2⟩
          exact ⟨List.mem_cons_of_mem _ h1, h2⟩
        · rintro ⟨h1, h2⟩
          rcases List.mem_cons.mp h1 with he | hm2
          · exfalso
            injection he with e1 _
            exact hnod (e1 ▸ dot_mem_getFileName K)
          · exact ⟨hm2, h2⟩
    | some ext =>
      by_cases hext : ext = ['j', 's', 'o', 'n']
      · subst hext
        obtain ⟨hname, hnd'⟩ := splitN2_sep hsp
        have hgf : getFileName rawKey = name := by rw [getFileName_eq, hname]
        have hassq : assq dir (getFileName rawKey) = some bb := by
          rw [hgf]
          exact assq_eq_some_of_mem hnd hmem
        have hread : readFileOp noFaults fs ns (getFileName rawKey) = .ok bb := by
          unfold readFileOp noFaults
          simp [hdir, hassq]
        have hget : StorageDatabase.Get noFaults fs ns rawKey = (bb, none) := by
          unfold StorageDatabase.Get
          rw [hread]
        refine ⟨(rawKey, bb) :: m, ?_, ?_⟩
        · simp [StorageDatabase.getAllLoop, hsp, hget, hm]
        · intro K b
          constructor
          · intro hKb
            rcases List.mem_cons.mp hKb with he | hm2
            · injection he with e1 e2
              subst e1
              subst e2
              exact ⟨by rw [hgf]; exact List.mem_cons_self _ _, hnd'⟩
            · obtain ⟨h1, h2⟩ := (hiff K b).mp hm2
              exact ⟨List.mem_cons_of_mem _ h1, h2⟩
          · rintro ⟨h1, h2⟩
            rcases List.mem_cons.mp h1 with he | hm2
            · injection he with e1 e2
              have h3 := splitN2_getFileName h2
              rw [e1, hsp] at h3
              have hK := ((Prod.mk.injEq _ _ _ _).mp h3).1
              subst hK
              subst e2
              exact List.mem_cons_self _ _
            · exact List.mem_cons_of_mem _ ((hiff K b).mpr ⟨hm2, h2⟩)
      · refine ⟨m, ?_, ?_⟩
        · simp only [StorageDatabase.getAllLoop, hsp, if_neg hext, hm]
        · intro K b
          rw [hiff K b]
          constructor
          · rintro ⟨h1, h2⟩
            exact ⟨List.mem_cons_of_mem _ h1, h2⟩
          · rintro ⟨h1, h2⟩
            rcases List.mem_cons.mp h1 with he | hm2
            · exfalso
              injection he with e1 _
              have h3 := splitN2_getFileName h2
              rw [e1, hsp] at h3
              exact hext (Option.some.inj ((Prod.mk.injEq _ _ _ _).mp h3).2)
            · exact ⟨hm2, h2⟩

/-! ## Closed forms for `Get` and `DeleteAll` -/

theorem Get_eq (f : Faults) (fs : FS) (ns key : GoStr) :
    StorageDatabase.Get f fs ns key =
      if f.read ns (getFileName key) then
        ([], some ⟨.FILESYSTEM_ERROR, "read error"⟩)
      else
        match fileLookup fs ns (getFileName key) with
        | some b => (b, none)
        | none => ([], some ⟨.FILESYSTEM_ERROR, "read error"⟩) := by
  unfold StorageDatabase.Get readFileOp fileLookup
  by_cases h : f.read ns (getFileName key)
  · simp [h]
  · rcases hns : assq fs ns with _ | d
    · simp [h, hns]
    · rcases hd : assq d (getFileName key) with _ | b <;> simp [h, hns, hd]

theorem DeleteAll_eq (f : Faults) (fs : FS) (ns : GoStr) :
    StorageDatabase.DeleteAll f fs ns =
      if f.removeAll ns then (fs, some ⟨.FILESYSTEM_ERROR, "removeall error"⟩)
      else (delq fs ns, none) := by
  unfold StorageDatabase.DeleteAll removeAllOp
  by_cases h : f.removeAll ns <;> simp [h]

/-! ## The claims -/

/-- C1 counterexample: in `exFS1` the namespace `users` exists but key
`1` is absent, yet `Get` reports `FILESYSTEM_ERROR`, not `ID_NOT_FOUND`;
on the absent namespace `posts` it likewise reports `FILESYSTEM_ERROR`,
not `NAMESPACE_NOT_FOUND` — so the claimed error kinds never appear and
the two absence cases are not distinguished. -/
theorem get_absent_not_distinguished_cx :
    (StorageDatabase.Get noFaults exFS1 (gs "users") (gs "1")).2 =
      some ⟨.FILESYSTEM_ERROR, "read error"⟩ ∧
    (StorageDatabase.Get noFaults exFS1 (gs "posts") (gs "1")).2 =
      some ⟨.FILESYSTEM_ERROR, "read error"⟩ ∧
    ErrorCode.FILESYSTEM_ERROR ≠ ErrorCode.ID_NOT_FOUND ∧
    ErrorCode.FILESYSTEM_ERROR ≠ ErrorCode.NAMESPACE_NOT_FOUND := by decide

/-- C1 (amended): `StorageDatabase.Get` reports `FILESYSTEM_ERROR`
whenever the backing file is absent — whether the key is missing from an
existing namespace or the namespace itself is missing — and
`FILESYSTEM_ERROR` is the only error kind `Get` ever returns, so the two
absence cases are not distinguished. -/
theorem get_absent_returns_filesystem_error
    (f : Faults) (fs : FS) (ns key : GoStr)
    (habs : fileLookup fs ns (getFileName key) = none) :
    (StorageDatabase.Get f fs ns key).2 =
      some ⟨.FILESYSTEM_ERROR, "read error"⟩ ∧
    ∀ (fs₂ : FS) (e : DbError),
      (StorageDatabase.Get f fs₂ ns key).2 = some e →
      e.errorCode = .FILESYSTEM_ERROR := by
  constructor
  · rw [Get_eq]
    by_cases h : f.read ns (getFileName key) <;> simp [h, habs]
  · intro fs₂ e he
    rw [Get_eq] at he
    by_cases h : f.read ns (getFileName key)
    · rw [if_pos h] at he
      obtain rfl := Option.some.inj he
      rfl
    · rw [if_neg h] at he
      rcases hl : fileLookup fs₂ ns (getFileName key) with _ | b
      · rw [hl] at he
        obtain rfl := Option.some.inj he
        rfl
      · rw [hl] at he
        simp at he

/-- C1 witness: on the empty filesystem, `Get` returns the
`FILESYSTEM_ERROR` kind. -/
theorem get_absent_returns_filesystem_error_witness :
    (StorageDatabase.Get noFaults ([] : FS) (gs "x") (gs "y")).2 =
      some ⟨.FILESYSTEM_ERROR, "read error"⟩ :=
  (get_absent_returns_filesystem_error noFaults [] (gs "x") (gs "y")
    (by decide)).1

/-- C2 (code bug): with a spurious `os.Stat` failure on the backing
file, `Upsert` reports success (`nil`) without writing, so the
subsequent `Get` returns the stale prior payload `[104, 105]` rather
than the upserted value `[110]`. -/
theorem upsert_success_but_get_returns_stale :
    (StorageDatabase.Upsert exFaults2 exFS2 (gs "users") (gs "1") [110]).2 =
      none ∧
    (StorageDatabase.Get exFaults2
      (StorageDatabase.Upsert exFaults2 exFS2 (gs "users") (gs "1") [110]).1
      (gs "users") (gs "1")).1 = [104, 105] ∧
    ([104, 105] : Bytes) ≠ [110] := by decide

/-- C3 (code bug): under a spurious `os.Stat` failure, `Upsert` reports
success while the stored value under `("posts", "7")` is still the prior
payload `[3]`, not the written value `[4, 5]` — success without the
record holding the new value. -/
theorem upsert_reports_success_without_replacing :
    (StorageDatabase.Upsert exFaults3 exFS3 (gs "posts") (gs "7") [4, 5]).2 =
      none ∧
    fileLookup
      (StorageDatabase.Upsert exFaults3 exFS3 (gs "posts") (gs "7") [4, 5]).1
      (gs "posts") (getFileName (gs "7")) = some [3] ∧
    some ([3] : Bytes) ≠ some [4, 5] := by decide

/-- C4 (code bug): when `DeleteAll` fails, the DELETE branch of
`namespaceHandler` still publishes `NAMESPACE_DELETED` (its error branch
lacks a `return`), so a broker event is produced for a failed
mutation. -/
theorem namespace_delete_publishes_event_despite_error :
    (StorageDatabase.DeleteAll exFaults4 exFS4 (gs "events")).2 =
      some ⟨.FILESYSTEM_ERROR, "removeall error"⟩ ∧
    (handleNamespaceDelete Unit exFaults4 exFS4 "u1" (gs "events")).2.2 =
      [⟨EVENT_NAMESPACE_DELETED, "u1", gs "events", [], none⟩] ∧
    (handleNamespaceDelete Unit exFaults4 exFS4 "u1" (gs "events")).2.1 =
      [.error 500 "removeall error", .json 202 "{}"] := by decide

/-- C5 counterexample: namespace `ghost` does not exist in `exFS5`, yet
`DeleteAll` succeeds (returns `nil`) rather than reporting
`NAMESPACE_NOT_FOUND`. -/
theorem deleteAll_missing_namespace_succeeds_cx :
    assq exFS5 (gs "ghost") = none ∧
    (StorageDatabase.DeleteAll noFaults exFS5 (gs "ghost")).2 = none := by
  decide

/-- C5 (amended): `DeleteAll` succeeds on every input — in particular on
a namespace that does not exist — whenever `os.RemoveAll` itself does
not fault, and `DeleteAll` never reports `NAMESPACE_NOT_FOUND`: its only
error kind is `FILESYSTEM_ERROR`. -/
theorem deleteAll_never_namespace_not_found
    (f : Faults) (fs : FS) (ns : GoStr) (h : f.removeAll ns = false) :
    (StorageDatabase.DeleteAll f fs ns).2 = none ∧
    ∀ (f₂ : Faults) (fs₂ : FS) (e : DbError),
      (StorageDatabase.DeleteAll f₂ fs₂ ns).2 = some e →
      e.errorCode = .FILESYSTEM_ERROR := by
  constructor
  · simp [DeleteAll_eq, h]
  · intro f₂ fs₂ e he
    rw [DeleteAll_eq] at he
    by_cases h2 : f₂.removeAll ns
    · rw [if_pos h2] at he
      obtain rfl := Option.some.inj he
      rfl
    · rw [if_neg h2] at he
      simp at he

/-- C5 witness: `DeleteAll` on the empty filesystem succeeds. -/
theorem deleteAll_never_namespace_not_found_witness :
    (StorageDatabase.DeleteAll noFaults ([] : FS) (gs "zz")).2 = none :=
  (deleteAll_never_namespace_not_found noFaults [] (gs "zz") rfl).1

/-- C6: once `Delete` has succeeded for `(N, K)`, a further `Delete`
returns exactly `ID_NOT_FOUND` — never another error kind — and leaves
the filesystem unchanged, so every further `Delete` behaves the same
until the record is recreated. -/
theorem delete_after_delete_returns_id_not_found
    (f : Faults) (fs fs' : FS) (ns key : GoStr) (hwf : fsWF fs)
    (h : StorageDatabase.Delete f fs ns key = (fs', none)) :
    StorageDatabase.Delete f fs' ns key =
      (fs', some ⟨.ID_NOT_FOUND, "value not found"⟩) := by
  simp only [StorageDatabase.Delete] at h ⊢
  rcases hstat : statOp f fs ns (getFileName key) with _ | _ | _
  · simp only [hstat] at h
    rcases hrem : removeOp f fs ns (getFileName key) with u | fs2
    · simp only [hrem] at h
      simp at h
    · simp only [hrem] at h
      obtain ⟨hfs, -⟩ := (Prod.mk.injEq _ _ _ _).mp h
      subst hfs
      unfold statOp at hstat
      by_cases hfault : f.stat ns (getFileName key)
      · simp [hfault] at hstat
      · rw [if_neg hfault] at hstat
        rcases hns : assq fs ns with _ | d
        · simp only [hns] at hstat
          simp at hstat
        · simp only [hns] at hstat
          rcases hd : assq d (getFileName key) with _ | b
          · simp only [hd] at hstat
            simp at hstat
          · unfold removeOp at hrem
            by_cases hfr : f.remove ns (getFileName key)
            · rw [if_pos hfr] at hrem
              simp at hrem
            · simp only [if_neg hfr, hns, hd] at hrem
              obtain rfl := (Except.ok.inj hrem).symm
              have hdir : dirWF d := hwf.2 (ns, d) (mem_of_assq_eq_some hns)
              have hstat2 :
                  statOp f (setq fs ns (delq d (getFileName key))) ns
                    (getFileName key) = .notExist := by
                unfold statOp
                simp only [if_neg hfault, assq_setq_self,
                  assq_delq_self _ hdir]
              simp only [hstat2]
  · simp only [hstat] at h
    simp at h
  · simp only [hstat] at h
    simp at h

/-- C6 witness: deleting `("w", "k")` from a state where it was just
deleted returns `ID_NOT_FOUND` and changes nothing. -/
theorem delete_after_delete_returns_id_not_found_witness :
    StorageDatabase.Delete noFaults [(gs "w", [])] (gs "w") (gs "k") =
      ([(gs "w", [])], some ⟨.ID_NOT_FOUND, "value not found"⟩) :=
  delete_after_delete_returns_id_not_found noFaults exFS6 [(gs "w", [])]
    (gs "w") (gs "k") (by unfold fsWF dirWF; decide) (by decide)

/-- C7 counterexample: after a successful `DeleteAll` of namespace `n7`,
`GetAll` returns `FILESYSTEM_ERROR` (from the failing directory read),
not `NotFoundNamespace`/`NAMESPACE_NOT_FOUND` as claimed. -/
theorem getAll_after_deleteAll_not_namespace_not_found_cx :
    (StorageDatabase.DeleteAll noFaults exFS7 (gs "n7")).2 = none ∧
    StorageDatabase.GetAll noFaults
      (StorageDatabase.DeleteAll noFaults exFS7 (gs "n7")).1 (gs "n7") =
      .error ⟨.FILESYSTEM_ERROR, "readdir error"⟩ ∧
    ErrorCode.FILESYSTEM_ERROR ≠ ErrorCode.NAMESPACE_NOT_FOUND :=
  ⟨by decide, rfl, by decide⟩

/-- C7 (amended): after a successful `DeleteAll(N)` on a well-formed
filesystem, the namespace directory is gone and a subsequent `GetAll(N)`
returns `FILESYSTEM_ERROR` — and in general `GetAll` on an absent
namespace reports `FILESYSTEM_ERROR`, not `NAMESPACE_NOT_FOUND`. -/
theorem getAll_after_deleteAll_filesystem_error
    (f : Faults) (fs fs' : FS) (ns : GoStr) (hwf : fsWF fs)
    (h : StorageDatabase.DeleteAll f fs ns = (fs', none)) :
    assq fs' ns = none ∧
    StorageDatabase.GetAll f fs' ns =
      .error ⟨.FILESYSTEM_ERROR, "readdir error"⟩ ∧
    ∀ fs₂ : FS, assq fs₂ ns = none →
      StorageDatabase.GetAll f fs₂ ns =
        .error ⟨.FILESYSTEM_ERROR, "readdir error"⟩ := by
  have habs : assq fs' ns = none := by
    rw [DeleteAll_eq] at h
    by_cases hr : f.removeAll ns
    · rw [if_pos hr] at h
      simp at h
    · rw [if_neg hr] at h
      obtain ⟨rfl, -⟩ := (Prod.mk.injEq _ _ _ _).mp h
      exact assq_delq_self ns hwf.1
  have hga : ∀ fs₂ : FS, assq fs₂ ns = none →
      StorageDatabase.GetAll f fs₂ ns =
        .error ⟨.FILESYSTEM_ERROR, "readdir error"⟩ := by
    intro fs₂ h2
    unfold StorageDatabase.GetAll readDirOp
    by_cases hrd : f.readDir ns
    · simp [hrd]
    · simp [hrd, h2]
  exact ⟨habs, hga fs' habs, hga⟩

/-- C7 witness: concrete instance of the amended claim after deleting
namespace `n7`. -/
theorem getAll_after_deleteAll_filesystem_error_witness :
    assq ([] : FS) (gs "n7") = none ∧
    StorageDatabase.GetAll noFaults ([] : FS) (gs "n7") =
      .error ⟨.FILESYSTEM_ERROR, "readdir error"⟩ :=
  let h := getAll_after_deleteAll_filesystem_error noFaults exFS7 []
    (gs "n7") (by unfold fsWF dirWF; decide) (by decide)
  ⟨h.1, h.2.1⟩

/-- C8: the validation gate is a function of the schema lookup outcome
and the candidate bytes: a found schema whose validation reports
violations aborts the write with one single error aggregating every
violated rule, and a lookup that found no schema accepts exactly the
inputs that parse as JSON. -/
theorem validate_aggregates_and_json_only (α : Type)
    (p : Bytes → Option α) (v : Bytes → Bytes → Except String SchemaResult)
    (data schemaJson : Bytes) (res : SchemaResult)
    (hv : v schemaJson data = .ok res) (hinv : res.valid = false) :
    validate α p v (.ok schemaJson) data =
      .error (aggregateErrors res.errors) ∧
    ∀ e : DbError,
      ((∃ x, validate α p v (.error e) data = .ok x) ↔ (p data).isSome) := by
  constructor
  · simp [validate, hv, hinv]
  · intro e
    unfold validate
    rcases hp : p data with _ | x <;> simp [hp]

/-- C8 witness: with a schema present and two violated rules, the gate
returns the single aggregated error. -/
theorem validate_aggregates_and_json_only_witness :
    validate Nat (fun b => if b = [1] then some 7 else none)
      (fun _ _ => .ok ⟨false, ["ruleA", "ruleB"]⟩) (.ok [9]) [2] =
      .error (aggregateErrors ["ruleA", "ruleB"]) :=
  (validate_aggregates_and_json_only Nat
    (fun b => if b = [1] then some 7 else none)
    (fun _ _ => .ok ⟨false, ["ruleA", "ruleB"]⟩)
    [2] [9] ⟨false, ["ruleA", "ruleB"]⟩ rfl rfl).1

/-- C9: any failed schema lookup — whatever the error value, including a
backend fault — makes `validate` fall back to JSON-syntax-only
validation: the result is independent of the error and of the schema
validator, and the write proceeds whenever the bytes parse as JSON. -/
theorem validate_lookup_error_fallback (α : Type) (p : Bytes → Option α)
    (data : Bytes) :
    (∀ (v₁ v₂ : Bytes → Bytes → Except String SchemaResult)
        (e₁ e₂ : DbError),
      validate α p v₁ (.error e₁) data = validate α p v₂ (.error e₂) data) ∧
    ∀ (v : Bytes → Bytes → Except String SchemaResult) (e : DbError) (x : α),
      p data = some x → validate α p v (.error e) data = .ok (some x) := by
  constructor
  · intro v₁ v₂ e₁ e₂
    rfl
  · intro v e x hp
    unfold validate
    rw [hp]

/-- C9 witness: a `FILESYSTEM_ERROR` backend fault on the schema lookup
does not abort the write: validation succeeds on parseable bytes. -/
theorem validate_lookup_error_fallback_witness :
    validate Nat (fun b => if b = [1] then some 7 else none)
      (fun _ _ => .error "never consulted")
      (.error ⟨.FILESYSTEM_ERROR, "backend fault"⟩) [1] = .ok (some 7) :=
  (validate_lookup_error_fallback Nat
    (fun b => if b = [1] then some 7 else none) [1]).2
    (fun _ _ => .error "never consulted")
    ⟨.FILESYSTEM_ERROR, "backend fault"⟩ 7 (by decide)

/-- C10: in a fault-free run on a well-formed namespace directory,
`GetAll` succeeds and returns exactly the pairs `(K, b)` such that the
directory holds an entry named `K ++ ".json"` with contents `b` and `K`
contains no dot; every other entry (wrong extension, extra dots, no
extension) is silently skipped rather than causing an error. -/
theorem getAll_keys_characterisation (fs : FS) (ns : GoStr) (dir : Dir)
    (hdir : assq fs ns = some dir) (hnd : dirWF dir) :
    isOkE (StorageDatabase.GetAll noFaults fs ns) = true ∧
    ∀ (K : GoStr) (b : Bytes),
      ((K, b) ∈ okList (StorageDatabase.GetAll noFaults fs ns) ↔
        ((getFileName K, b) ∈ dir ∧ '.' ∉ K)) := by
  obtain ⟨m, hm, hiff⟩ := getAllLoop_spec fs ns dir hdir hnd dir
    (fun _ he => he)
  have hga : StorageDatabase.GetAll noFaults fs ns = .ok m := by
    unfold StorageDatabase.GetAll readDirOp
    have hrd : noFaults.readDir ns = false := rfl
    simp [hrd, hdir, hm]
  rw [hga]
  exact ⟨rfl, fun K b => hiff K b⟩

/-- C10 witness: on `exDir10` the characterisation applies; `GetAll`
succeeds and contains the key `a` read from entry `a.json`. -/
theorem getAll_keys_characterisation_witness :
    isOkE (StorageDatabase.GetAll noFaults exFS10 (gs "docs")) = true ∧
    (gs "a", [1]) ∈ okList (StorageDatabase.GetAll noFaults exFS10
      (gs "docs")) := by
  have h := getAll_keys_characterisation exFS10 (gs "docs") exDir10
    (by decide) (by unfold dirWF; decide)
  exact ⟨h.1, (h.2 (gs "a") [1]).mpr ⟨by decide, by decide⟩⟩
